import Mathlib

/-!
Shallow embedding of the seller-telegram-bot report engine (`src/main.py`)
and proofs about its specified behaviour.

Numbers are modelled as rationals (`ℚ`); Python floats are idealized as
exact rational arithmetic.  Cells of a spreadsheet are either NA (pandas
`NaN`/`None`) or a piece of text (`str(x)` of the raw cell).
-/

namespace SellerBot

/-- The non-breaking space character `U+00A0`, handled by `_parse_number`. -/
def nbsp : Char := Char.ofNat 160

/-- Whitespace as recognised by Python's `str.strip` / regex `\s`
(restricted to the ASCII whitespace characters plus the non-breaking
space, which is the fragment relevant to the source). -/
def pyIsSpace (c : Char) : Bool :=
  c == ' ' || c == '\t' || c == '\n' || c == '\r' || c == '\x0b' || c == '\x0c' || c == nbsp

/-- Python `str.strip()` on a list of characters: drop whitespace from
both ends. -/
def pyStrip (l : List Char) : List Char :=
  ((l.dropWhile pyIsSpace).reverse.dropWhile pyIsSpace).reverse

/-- Python `str.lower()` restricted to ASCII letters and the Cyrillic
letters (the alphabets occurring in the source's column synonyms). -/
def pyLower (c : Char) : Char :=
  if 'A' ≤ c ∧ c ≤ 'Z' then Char.ofNat (c.toNat + 32)
  else if 'А' ≤ c ∧ c ≤ 'Я' then Char.ofNat (c.toNat + 32)
  else if c = 'Ё' then 'ё'
  else c

/-- Collapse every maximal run of whitespace into a single ordinary
space, as `re.sub(r"\s+", " ", s)` does in `_norm` (main.py line 132). -/
def squeezeWs : List Char → List Char
  | [] => []
  | c :: rest =>
    let r := squeezeWs rest
    if pyIsSpace c then
      match r with
      | ' ' :: _ => r
      | _ => ' ' :: r
    else c :: r

/-- The label normalizer `_norm` (main.py lines 131-132): collapse
whitespace, strip, lowercase. -/
def _norm (s : String) : List Char :=
  (pyStrip (squeezeWs s.toList)).map pyLower

/-- Python's substring test `pat in l` on character lists. -/
def hasSub (pat : List Char) : List Char → Bool
  | [] => pat.isEmpty
  | c :: rest => (pat.isPrefixOf (c :: rest)) || hasSub pat rest

/-- First cleanup pass of `_parse_number` (main.py line 137): remove
non-breaking and ordinary spaces, then turn every comma into a decimal
point.  (The source's three `str.replace` calls commute into this
filter-then-map form because `','` is not removed and the map introduces
no spaces.) -/
def sanitize (l : List Char) : List Char :=
  (l.filter (fun c => !(c == ' ') && !(c == nbsp))).map (fun c => if c = ',' then '.' else c)

/-- A match of the regex `-?\d+(?:\.\d+)?`: an optional sign, a nonempty
run of integer digits, and an optional nonempty run of fraction digits. -/
structure NumToken where
  neg : Bool
  ints : List Char
  frac : Option (List Char)
deriving DecidableEq, Repr

/-- Greedy continuation of a regex match that starts at the head of `l`
(which is known to be a digit): take the maximal digit run, then an
optional `.`-plus-digits group. -/
def grabTok (neg : Bool) (l : List Char) : NumToken :=
  let ints := l.takeWhile Char.isDigit
  match l.dropWhile Char.isDigit with
  | '.' :: r =>
    if (r.head?.map Char.isDigit).getD false then ⟨neg, ints, some (r.takeWhile Char.isDigit)⟩
    else ⟨neg, ints, none⟩
  | _ => ⟨neg, ints, none⟩

/-- Leftmost match of `re.search(r"-?\d+(?:\.\d+)?", s)` (main.py line
138): scan left to right; a match starts at a `-` directly followed by a
digit, or at a digit. -/
def findTok : List Char → Option NumToken
  | [] => none
  | c :: rest =>
    if c = '-' then
      match rest with
      | [] => none
      | d :: _ => if d.isDigit then some (grabTok true rest) else findTok rest
    else if c.isDigit then some (grabTok false (c :: rest))
    else findTok rest

/-- Value of a big-endian digit string (how Python's `float` reads the
integer and fraction digit runs of the matched token). -/
def digitsToNat (l : List Char) : ℕ :=
  l.foldl (fun a c => 10 * a + (c.toNat - 48)) 0

/-- Numeric value of a matched token, as an exact rational. -/
def tokVal (t : NumToken) : ℚ :=
  let ip : ℚ := (digitsToNat t.ints : ℚ)
  let v : ℚ :=
    match t.frac with
    | none => ip
    | some f => ip + (digitsToNat f : ℚ) / (10 : ℚ) ^ f.length
  if t.neg then -v else v

/-- The numeric normalizer on text: clean the string, strip it, and take
the value of the first signed decimal token, if any (main.py lines
137-144). -/
def parseNumL (l : List Char) : Option ℚ :=
  (findTok (pyStrip (sanitize l))).map tokVal

/-- A spreadsheet cell: pandas NA, or the text `str(x)` of the value. -/
inductive Cell where
  | na : Cell
  | txt : String → Cell
deriving DecidableEq, Repr

/-- The numeric normalizer `_parse_number` (main.py lines 134-144):
`None` on NA, otherwise the first signed decimal token of the cleaned
text. -/
def _parse_number : Cell → Option ℚ
  | .na => none
  | .txt v => parseNumL v.toList

/-- Python `str.strip()` on a `String`. -/
def pyStripStr (s : String) : String :=
  ⟨pyStrip s.toList⟩

/-- The resolver `find_amount_col` (main.py lines 189-199): first a
column whose normalized label contains "итого", then one containing
"сумм", "начисл" or "amount". -/
def find_amount_col (cols : List String) : Option String :=
  match cols.find? (fun c => hasSub "итого".toList (_norm c)) with
  | some c => some c
  | none =>
    cols.find? (fun c =>
      hasSub "сумм".toList (_norm c) || hasSub "начисл".toList (_norm c) ||
        hasSub "amount".toList (_norm c))

/-- The resolver `find_sku_col` (main.py lines 201-206). -/
def find_sku_col (cols : List String) : Option String :=
  cols.find? (fun c =>
    hasSub "sku".toList (_norm c) || hasSub "offer".toList (_norm c) ||
      hasSub "артикул".toList (_norm c))

/-- The resolver `find_qty_col` (main.py lines 208-213). -/
def find_qty_col (cols : List String) : Option String :=
  cols.find? (fun c =>
    hasSub "кол".toList (_norm c) || hasSub "quantity".toList (_norm c) ||
      hasSub "qty".toList (_norm c))

/-- A loaded table: column labels and rows of cells (a pandas frame). -/
structure Table where
  header : List String
  rows : List (List Cell)
deriving DecidableEq, Repr

/-- Cell of a row under a column label (`df[c]` access, index-safe). -/
def cellAt (header : List String) (col : String) (row : List Cell) : Cell :=
  match header.findIdx? (fun h => h == col) with
  | some i => row.getD i Cell.na
  | none => Cell.na

/-- How many rows of the table have a parsable number in column `c`
(`df[c].map(_parse_number).notna().sum()`, main.py line 230). -/
def numScore (t : Table) (c : String) : ℕ :=
  t.rows.countP (fun r => (_parse_number (cellAt t.header c r)).isSome)

/-- The fallback loop of main.py lines 228-232: keep the best-scoring
column seen so far, replacing it only on a strictly greater score. -/
def bestAux (t : Table) : List String → Option String → ℕ → Option String
  | [], best, _ => best
  | c :: rest, best, bs =>
    if bs < numScore t c then bestAux t rest (some c) (numScore t c)
    else bestAux t rest best bs

/-- Statistical fallback for the amount column: the column with the most
parsable numeric cells, leftmost on ties, `none` if no column has any. -/
def bestNumericCol (t : Table) : Option String :=
  bestAux t t.header none 0

/-- A row retained by `parse_report`: normalized amount plus the derived
`_sku` and `_qty` columns (main.py lines 241-253). -/
structure ParsedRow where
  amount : ℚ
  sku : String
  qty : ℚ
deriving DecidableEq, Repr

/-- Result of `parse_report` (main.py line 264), with the resolved
columns recorded as in its `note` string. -/
structure Report where
  amountCol : String
  skuCol : Option String
  qtyCol : Option String
  rows : List ParsedRow
  total : ℚ
  revenue : ℚ
  deductions : ℚ
deriving DecidableEq, Repr

/-- Pandas `astype(str)` on a cell: NA prints as "nan". -/
def cellStr : Cell → String
  | .na => "nan"
  | .txt v => v

/-- The `_sku` value of one row (main.py lines 244-247): the stripped
text of the sku cell, or `""` when no sku column resolved. -/
def skuOfRow (header : List String) (row : List Cell) : String :=
  match find_sku_col header with
  | some c => pyStripStr (cellStr (cellAt header c row))
  | none => ""

/-- The `_qty` value of one row (main.py lines 249-253): the normalized
quantity cell, defaulting to 1 when the column is absent, the cell does
not normalize, or the value is non-positive. -/
def qtyOfRow (header : List String) (row : List Cell) : ℚ :=
  match find_qty_col header with
  | some c =>
    match _parse_number (cellAt header c row) with
    | none => 1
    | some v => if v ≤ 0 then 1 else v
  | none => 1

/-- One step of the row pipeline of `parse_report` (main.py lines
241-253): a row is kept exactly when its amount cell normalizes, and is
then decorated with `_sku` and `_qty`. -/
def mkRow (header : List String) (amountCol : String) (row : List Cell) : Option ParsedRow :=
  match _parse_number (cellAt header amountCol row) with
  | none => none
  | some a => some ⟨a, skuOfRow header row, qtyOfRow header row⟩

/-- The report parser `parse_report` (main.py lines 217-264): resolve the
amount column (synonyms, then the numeric-score fallback), keep the rows
whose amount normalizes, derive `_sku` and `_qty`, and total up. -/
def parse_report (t : Table) : Except String Report :=
  if t.rows.isEmpty || t.header.isEmpty then .error "Файл пустой или не читается."
  else
    let header := t.header.map pyStripStr
    let t' : Table := ⟨header, t.rows⟩
    let amount? :=
      match find_amount_col header with
      | some c => some c
      | none => bestNumericCol t'
    match amount? with
    | none => .error "Не нашёл колонку с суммой/итого в файле."
    | some amountCol =>
      if amountCol = "" then .error "Не нашёл колонку с суммой/итого в файле."
      else
        let rows := t.rows.filterMap (mkRow header amountCol)
        .ok { amountCol,
              skuCol := find_sku_col header,
              qtyCol := find_qty_col header,
              rows,
              total := (rows.map ParsedRow.amount).sum,
              revenue := ((rows.filter (fun r => decide (0 < r.amount))).map ParsedRow.amount).sum,
              deductions := ((rows.filter (fun r => decide (r.amount < 0))).map ParsedRow.amount).sum }

/-- Per-entity amount: `df.groupby("_sku")["_amount"].sum()` evaluated at
one key (main.py line 261). -/
def bySkuAmount (r : Report) (k : String) : ℚ :=
  ((r.rows.filter (fun row => row.sku == k)).map ParsedRow.amount).sum

/-- Health indicator shown by the net-profit branch (main.py line 539):
🔴 = critical, 🟡 = marginal, 🟢 = healthy. -/
inductive Status where
  | critical : Status
  | marginal : Status
  | healthy : Status
deriving DecidableEq, Repr

/-- Per-sku unit cost: `cogs_map.get(s, 0.0)` (main.py line 532) — the
per-entity cost with the catalog's default cost, which this
implementation fixes at `0`, for an absent sku. -/
def unit_cost (m : List (String × ℚ)) (s : String) : ℚ :=
  (m.lookup s).getD 0

/-- Result of the net-profit (Policy B with catalog) branch of
`handle_document` (main.py lines 519-539). -/
structure NetProfitResult where
  cogsTotal : ℚ
  netProfit : ℚ
  margin : ℚ
  status : Status
deriving DecidableEq, Repr

/-- The net-profit branch of `handle_document` (main.py lines 519-539):
drop rows with an empty `_sku` (returning `none` models the "SKU not
found" reply when nothing is left), charge `unit_cost × _qty` per row,
and derive profit, margin and status. -/
def computeNetProfit (p : Report) (m : List (String × ℚ)) : Option NetProfitResult :=
  let rows := p.rows.filter (fun r => !(r.sku == ""))
  if rows.isEmpty then none
  else
    let cogsTotal := (rows.map (fun r => unit_cost m r.sku * r.qty)).sum
    let netProfit := p.total - cogsTotal
    let margin := if 0 < p.revenue then netProfit / p.revenue * 100 else 0
    let status : Status :=
      if netProfit ≤ 0 then .critical else if margin < 15 then .marginal else .healthy
    some ⟨cogsTotal, netProfit, margin, status⟩

/-- A row of the sqlite `cogs` table (main.py lines 59-65), primary key
`(tg_id, sku)`. -/
structure CogsRow where
  tgId : Int
  sku : String
  cogs : ℚ
  updatedAt : String
deriving DecidableEq, Repr

/-- The persisted cogs store, a bag of rows (well-formed stores have
distinct primary keys, as the sqlite PRIMARY KEY enforces). -/
abbrev CogsDB := List CogsRow

/-- Primary-key uniqueness of the sqlite `cogs` table. -/
def CogsDB.Wf (db : CogsDB) : Prop :=
  db.Pairwise (fun a b => ¬(a.tgId = b.tgId ∧ a.sku = b.sku))

/-- The writer `upsert_cogs` (main.py lines 85-91): `INSERT ... ON
CONFLICT(tg_id, sku) DO UPDATE SET cogs, updated_at` — update the
conflicting row in place, else append a fresh row. -/
def upsert_cogs (u : Int) (s : String) (v : ℚ) (today : String) (db : CogsDB) : CogsDB :=
  if db.any (fun r => r.tgId == u && r.sku == s) then
    db.map (fun r =>
      if r.tgId == u && r.sku == s then { r with cogs := v, updatedAt := today } else r)
  else db ++ [⟨u, s, v, today⟩]

/-- The reader `get_cogs_map` (main.py lines 93-96): `SELECT sku, cogs
FROM cogs WHERE tg_id=?` turned into a sku → cogs association. -/
def get_cogs_map (u : Int) (db : CogsDB) : List (String × ℚ) :=
  (db.filter (fun r => r.tgId == u)).map (fun r => (r.sku, r.cogs))

/-- Modelled from the spec: Policy A's aggregate revenue (spec §4.4,
"Revenue_total = sum of all amount values") over the amount cells that
normalize; the Policy A calculator itself is not part of `src/main.py`. -/
def policyA_revenue_total (cells : List Cell) : ℚ :=
  (cells.filterMap _parse_number).sum

/-- Modelled from the spec: Policy A's tax, "Tax_total = max(Revenue_total,
0) × tax_rate" (spec §4.4); the Policy A calculator is not part of
`src/main.py`. -/
def policyA_tax_total (cells : List Cell) (taxRate : ℚ) : ℚ :=
  max (policyA_revenue_total cells) 0 * taxRate

/-- Big-endian decimal digit characters of `n`, with explicit fuel so
that the kernel can evaluate it (`fuel ≥ n` suffices). -/
def natDigitsAux : ℕ → ℕ → List Char
  | 0, _ => []
  | fuel + 1, n =>
    if n = 0 then [] else natDigitsAux fuel (n / 10) ++ [Nat.digitChar (n % 10)]

/-- Big-endian decimal digit characters of a natural number. -/
def natDigits (m : ℕ) : List Char :=
  natDigitsAux m m

/-- The plain positional branch of Python's `str()` of a float,
idealized to exact decimals: a signed plain decimal such as `-20.0` or
`1.5` (integral values print with a trailing `.0`, as CPython does).
CPython uses this format exactly while the value's decimal exponent
lies in `[-4, 16)`; `pyFloatStr` below adds the scientific-notation
branch used outside that window. -/
def pyFloatRepr (q : ℚ) : List Char :=
  match (List.range (q.den + 1)).find? (fun k => decide (q.den ∣ 10 ^ k)) with
  | none => ['0']
  | some k =>
    let m := q.num.natAbs * 10 ^ k / q.den
    let ds := natDigits m
    let padded := List.replicate (k + 1 - ds.length) '0' ++ ds
    let ip := padded.take (padded.length - k)
    let fp := padded.drop (padded.length - k)
    (if q.num < 0 then ['-'] else []) ++ ip ++ '.' :: (if k = 0 then ['0'] else fp)

/-- Python's `str()` of a float, idealized over exact decimals: CPython
prints the value positionally (`pyFloatRepr`) while its decimal
exponent lies in `[-4, 16)` and switches to scientific notation
(`1e+16`, `1e-05`, …) outside that window — mantissa digits without
trailing zeros, a decimal point only when more than one digit remains,
and a signed exponent padded to at least two digits. -/
def pyFloatStr (q : ℚ) : List Char :=
  match (List.range (q.den + 1)).find? (fun k => decide (q.den ∣ 10 ^ k)) with
  | none => ['0']
  | some k =>
    let m := q.num.natAbs * 10 ^ k / q.den
    let e : ℤ := ((natDigits m).length : ℤ) - 1 - (k : ℤ)
    if e < -4 ∨ 16 ≤ e then
      let ds := ((natDigits m).reverse.dropWhile (fun c => c == '0')).reverse
      let mant :=
        match ds with
        | [] => ['0']
        | d :: rest => if rest.isEmpty then [d] else d :: '.' :: rest
      let expDigits := natDigits e.natAbs
      (if q.num < 0 then ['-'] else []) ++ mant ++ 'e'
        :: (if e < 0 then '-' else '+')
        :: (if expDigits.length < 2 then '0' :: expDigits else expDigits)
    else pyFloatRepr q

/-- The normalized amounts of a table under a given amount column, in
row order, rows whose amount cell fails to normalize excluded. -/
def amountsOf (t : Table) (ac : String) : List ℚ :=
  t.rows.filterMap (fun row => _parse_number (cellAt (t.header.map pyStripStr) ac row))

/-- The normalized amounts of the rows attributed to entity `k`, rows
whose amount cell fails to normalize excluded. -/
def skuAmountsOf (t : Table) (ac : String) (k : String) : List ℚ :=
  t.rows.filterMap (fun row =>
    match _parse_number (cellAt (t.header.map pyStripStr) ac row) with
    | none => none
    | some a =>
      if skuOfRow (t.header.map pyStripStr) row = k then some a else none)

/-- The best numeric-cell count over all columns of a table. -/
def maxScore (t : Table) : ℕ :=
  (t.header.map (numScore t)).foldr max 0

/-- Follows the spec's words for the statistical amount fallback: "select
the column whose cells parse as numbers most often", "ties broken by
leftmost column" — the leftmost column attaining the best count, provided
some cell parses at all. -/
def amountColSpec (t : Table) : Option String :=
  if maxScore t = 0 then none
  else t.header.find? (fun c => numScore t c == maxScore t)

/-- Shape of every token produced by `findTok`: nonempty digit runs. -/
def NumToken.Wf (t : NumToken) : Prop :=
  t.ints ≠ [] ∧ (∀ c ∈ t.ints, c.isDigit = true) ∧
    ∀ f, t.frac = some f → f ≠ [] ∧ ∀ c ∈ f, c.isDigit = true

/-- A rational with a finite decimal expansion (the image of the
numeric normalizer). -/
def IsDecimal (q : ℚ) : Prop :=
  ∃ k : ℕ, (q.den : ℕ) ∣ 10 ^ k

/-- The text of a token, exactly as the regex matched it. -/
def tokChars (t : NumToken) : List Char :=
  (if t.neg then ['-'] else []) ++ t.ints ++
    (match t.frac with
     | none => []
     | some f => '.' :: f)

/-- Characters that never collide with the cleanup of `_parse_number`:
not a space, not a non-breaking space, not a comma, not whitespace. -/
def PlainChar (c : Char) : Prop :=
  ¬ c = ' ' ∧ ¬ c = nbsp ∧ ¬ c = ',' ∧ pyIsSpace c = false

/-- Leading noise tolerated by the normalizer: no digit (a match could
start there), no minus sign (it could join a following digit), and no
whitespace other than the removed ordinary and non-breaking spaces. -/
def NoiseBefore (n : List Char) : Prop :=
  ∀ c ∈ n, c.isDigit = false ∧ ¬ c = '-' ∧ (c = ' ' ∨ c = nbsp ∨ pyIsSpace c = false)

/-- Trailing noise tolerated by the normalizer: after comma/space
cleanup it must not start with a digit (the match would grow), must not
start with `.`-digit when the token has no fraction yet, and may contain
no whitespace other than ordinary and non-breaking spaces. -/
def NoiseAfter (t : NumToken) (n : List Char) : Prop :=
  (((sanitize n).head?.map Char.isDigit).getD false = false)
  ∧ (t.frac = none → ∀ r, sanitize n = '.' :: r → (r.head?.map Char.isDigit).getD false = false)
  ∧ ∀ c ∈ n, c = ' ' ∨ c = nbsp ∨ pyIsSpace c = false

theorem map_amount_filterMap_mkRow (header : List String) (ac : String)
    (rows : List (List Cell)) :
    (rows.filterMap (mkRow header ac)).map ParsedRow.amount
      = rows.filterMap (fun row => _parse_number (cellAt header ac row)) := by
  induction rows with
  | nil => rfl
  | cons r rest ih =>
    cases h : _parse_number (cellAt header ac r) <;>
      simp [List.filterMap_cons, mkRow, h, ih]

theorem filter_amount_comm (p : ℚ → Bool) (l : List ParsedRow) :
    (l.filter (fun r => p r.amount)).map ParsedRow.amount = (l.map ParsedRow.amount).filter p := by
  induction l with
  | nil => rfl
  | cons r rest ih => cases hp : p r.amount <;> simp [List.filter_cons, hp, ih]

theorem sum_filter_pos_add_neg (l : List ℚ) :
    l.sum = (l.filter (fun a => decide (0 < a))).sum + (l.filter (fun a => decide (a < 0))).sum := by
  induction l with
  | nil => simp
  | cons a rest ih =>
    rcases lt_trichotomy a 0 with h | h | h
    · have h1 : ¬ (0 < a) := not_lt.mpr h.le
      simp [List.filter_cons, h, h1, ih]; ring
    · subst h
      simp [List.filter_cons, ih]
    · have h1 : ¬ (a < 0) := not_lt.mpr h.le
      simp [List.filter_cons, h, h1, ih]; ring

theorem parse_report_ok_shape (t : Table) (r : Report) (h : parse_report t = .ok r) :
    r.rows = t.rows.filterMap (mkRow (t.header.map pyStripStr) r.amountCol)
    ∧ r.total = (r.rows.map ParsedRow.amount).sum
    ∧ r.revenue = ((r.rows.filter (fun x => decide (0 < x.amount))).map ParsedRow.amount).sum
    ∧ r.deductions = ((r.rows.filter (fun x => decide (x.amount < 0))).map ParsedRow.amount).sum := by
  unfold parse_report at h
  split at h
  · exact absurd h (by simp)
  · simp only [] at h
    split at h
    · exact absurd h (by simp)
    · rename_i amountCol heq
      split at h
      · exact absurd h (by simp)
      · rw [Except.ok.injEq] at h
        subst h
        exact ⟨rfl, rfl, rfl, rfl⟩

theorem bySku_filterMap (header : List String) (ac k : String) (rows : List (List Cell)) :
    (((rows.filterMap (mkRow header ac)).filter (fun row => row.sku == k)).map ParsedRow.amount).sum
      = (rows.filterMap (fun row =>
          match _parse_number (cellAt header ac row) with
          | none => none
          | some a => if skuOfRow header row = k then some a else none)).sum := by
  induction rows with
  | nil => rfl
  | cons r rest ih =>
    cases h : _parse_number (cellAt header ac r) with
    | none => simpa [List.filterMap_cons, mkRow, h] using ih
    | some a =>
      by_cases hs : skuOfRow header r = k
      · simp [List.filterMap_cons, mkRow, h, hs, List.filter_cons, ih]
      · simp [List.filterMap_cons, mkRow, h, hs, List.filter_cons, ih]

/-- C1: for every table, after rows whose amount cell fails to normalize
are excluded, `revenue` is the sum of the strictly positive normalized
amounts, `deductions` the sum of the strictly negative ones, `total` the
sum of all normalized amounts, `total = revenue + deductions`, and every
per-entity sum ranges only over the retained rows. -/
theorem claim_C1 (t : Table) (r : Report) (h : parse_report t = .ok r) :
    r.total = (amountsOf t r.amountCol).sum
    ∧ r.revenue = ((amountsOf t r.amountCol).filter (fun a => decide (0 < a))).sum
    ∧ r.deductions = ((amountsOf t r.amountCol).filter (fun a => decide (a < 0))).sum
    ∧ r.total = r.revenue + r.deductions
    ∧ ∀ k : String, bySkuAmount r k = (skuAmountsOf t r.amountCol k).sum := by
  obtain ⟨hrows, htot, hrev, hded⟩ := parse_report_ok_shape t r h
  have hmap : r.rows.map ParsedRow.amount = amountsOf t r.amountCol := by
    rw [hrows, map_amount_filterMap_mkRow]; rfl
  refine ⟨?_, ?_, ?_, ?_, ?_⟩
  · rw [htot, hmap]
  · rw [hrev, filter_amount_comm (fun a => decide (0 < a)) r.rows, hmap]
  · rw [hded, filter_amount_comm (fun a => decide (a < 0)) r.rows, hmap]
  · rw [htot, hrev, hded, filter_amount_comm (fun a => decide (0 < a)) r.rows,
      filter_amount_comm (fun a => decide (a < 0)) r.rows, hmap,
      sum_filter_pos_add_neg (amountsOf t r.amountCol)]
  · intro k
    unfold bySkuAmount
    rw [hrows]
    exact bySku_filterMap (t.header.map pyStripStr) r.amountCol k t.rows

/-- Witness for C1 at a concrete three-row table (one row excluded). -/
theorem claim_C1_witness :
    (Report.mk "Итого" (some "Артикул") none [⟨5, "A", 1⟩, ⟨-3, "B", 1⟩] 2 5 (-3)).total
      = (amountsOf (Table.mk ["Артикул", "Итого"]
          [[Cell.txt "A", Cell.txt "5"], [Cell.txt "A", Cell.txt "x"], [Cell.txt "B", Cell.txt "-3"]])
          "Итого").sum
    ∧ bySkuAmount (Report.mk "Итого" (some "Артикул") none [⟨5, "A", 1⟩, ⟨-3, "B", 1⟩] 2 5 (-3)) "A"
      = (skuAmountsOf (Table.mk ["Артикул", "Итого"]
          [[Cell.txt "A", Cell.txt "5"], [Cell.txt "A", Cell.txt "x"], [Cell.txt "B", Cell.txt "-3"]])
          "Итого" "A").sum := by
  have h := claim_C1
    (Table.mk ["Артикул", "Итого"]
      [[Cell.txt "A", Cell.txt "5"], [Cell.txt "A", Cell.txt "x"], [Cell.txt "B", Cell.txt "-3"]])
    (Report.mk "Итого" (some "Артикул") none [⟨5, "A", 1⟩, ⟨-3, "B", 1⟩] 2 5 (-3))
    (by norm_num +decide [parse_report, mkRow, _parse_number, parseNumL, sanitize, pyStrip,
      pyIsSpace, nbsp, findTok, grabTok, tokVal, skuOfRow, qtyOfRow, find_amount_col,
      find_sku_col, find_qty_col, _norm, squeezeWs, pyLower, hasSub, cellAt, cellStr, pyStripStr,
      List.filterMap_cons, List.filterMap_nil, List.filter_cons, List.filter_nil,
      List.sum_cons, List.sum_nil,
      (by decide : digitsToNat ['5'] = 5), (by decide : digitsToNat ['3'] = 3)])
  exact ⟨h.1, h.2.2.2.2 "A"⟩

theorem find_amount_col_ne_empty {cols : List String} {c : String}
    (h : find_amount_col cols = some c) : c ≠ "" := by
  unfold find_amount_col at h
  cases hfind : cols.find? (fun c => hasSub "итого".toList (_norm c)) with
  | some c' =>
    rw [hfind] at h
    have hp := List.find?_some hfind
    cases h
    intro hc
    rw [hc] at hp
    exact absurd hp (by decide)
  | none =>
    rw [hfind] at h
    have hp := List.find?_some h
    intro hc
    rw [hc] at hp
    exact absurd hp (by decide)

theorem find_amount_col_ne_nil {cols : List String} {c : String}
    (h : find_amount_col cols = some c) : cols ≠ [] := by
  intro h0
  subst h0
  simp [find_amount_col] at h

/-- Counterexample to C2: a table whose sku role cannot be resolved is
nevertheless parsed successfully (all rows grouped under the empty sku),
so an unresolved sku role alone does not produce the "cannot identify
columns" failure the claim asserts. -/
theorem claim_C2_counterexample :
    find_sku_col (List.map pyStripStr ["итого"]) = none
    ∧ parse_report (Table.mk ["итого"] [[Cell.txt "5"]])
        = .ok (Report.mk "итого" none none [⟨5, "", 1⟩] 5 5 0) := by
  constructor
  · decide
  · norm_num +decide [parse_report, mkRow, _parse_number, parseNumL, sanitize, pyStrip,
      pyIsSpace, nbsp, findTok, grabTok, tokVal, skuOfRow, qtyOfRow, find_amount_col,
      find_sku_col, find_qty_col, _norm, squeezeWs, pyLower, hasSub, cellAt, cellStr, pyStripStr,
      List.filterMap_cons, List.filterMap_nil, List.filter_cons, List.filter_nil,
      List.sum_cons, List.sum_nil, (by decide : digitsToNat ['5'] = 5)]

/-- C2 (amended): if the amount role cannot be resolved by either the
synonym pass or the numeric-score fallback, the engine reports the
definite "cannot identify columns" failure and produces no computation
result; an unresolved sku role by itself does not trigger this failure. -/
theorem claim_C2_amended (t : Table) (h0 : t.header ≠ []) (h1 : t.rows ≠ [])
    (h2 : find_amount_col (t.header.map pyStripStr) = none)
    (h3 : bestNumericCol ⟨t.header.map pyStripStr, t.rows⟩ = none) :
    parse_report t = .error "Не нашёл колонку с суммой/итого в файле." := by
  unfold parse_report
  rw [if_neg]
  · simp only []
    rw [h2, h3]
  · simp [List.isEmpty_iff, h0, h1]

/-- Witness for the amended C2 at a concrete unresolvable table. -/
theorem claim_C2_amended_witness :
    parse_report (Table.mk ["a"] [[Cell.txt "x"]])
      = .error "Не нашёл колонку с суммой/итого в файле." :=
  claim_C2_amended (Table.mk ["a"] [[Cell.txt "x"]])
    (by decide) (by decide) (by decide) (by decide)

/-- C3 (amended): a non-empty table whose amount column resolves by label
but in which every amount cell fails to normalize yields a successful
result with an empty row set and all totals zero — not the "no usable
data" failure the claim asserts. -/
theorem claim_C3_amended (t : Table) (c : String)
    (h1 : t.rows ≠ [])
    (h2 : find_amount_col (t.header.map pyStripStr) = some c)
    (h3 : ∀ row ∈ t.rows, _parse_number (cellAt (t.header.map pyStripStr) c row) = none) :
    parse_report t = .ok (Report.mk c (find_sku_col (t.header.map pyStripStr))
        (find_qty_col (t.header.map pyStripStr)) [] 0 0 0) := by
  have hc : c ≠ "" := find_amount_col_ne_empty h2
  have hh : t.header ≠ [] := by
    intro h0
    exact find_amount_col_ne_nil h2 (by rw [h0]; rfl)
  have hrows : t.rows.filterMap (mkRow (t.header.map pyStripStr) c) = [] := by
    rw [List.filterMap_eq_nil_iff]
    intro row hrow
    unfold mkRow
    rw [h3 row hrow]
  unfold parse_report
  rw [if_neg (by simp [List.isEmpty_iff, h1, hh])]
  simp only [h2, hrows, if_neg hc, List.map_nil, List.filter_nil, List.sum_nil]

/-- Counterexample to C3: a non-empty table whose only amount cell fails
to normalize is answered with a successful zero-total result, not a
definite "no usable data" failure. -/
theorem claim_C3_counterexample :
    parse_report (Table.mk ["итого"] [[Cell.txt "x"]])
      = .ok (Report.mk "итого" none none [] 0 0 0) := by
  norm_num +decide [parse_report, mkRow, _parse_number, parseNumL, sanitize, pyStrip,
    pyIsSpace, nbsp, findTok, grabTok, tokVal, skuOfRow, qtyOfRow, find_amount_col,
    find_sku_col, find_qty_col, _norm, squeezeWs, pyLower, hasSub, cellAt, cellStr, pyStripStr,
    List.filterMap_cons, List.filterMap_nil, List.filter_cons, List.filter_nil,
    List.sum_cons, List.sum_nil]

/-- Witness for the amended C3 at a concrete all-unparsable table. -/
theorem claim_C3_amended_witness :
    parse_report (Table.mk ["Итого, руб."] [[Cell.txt "abc"], [Cell.txt ""]])
      = .ok (Report.mk "Итого, руб." none none [] 0 0 0) :=
  claim_C3_amended (Table.mk ["Итого, руб."] [[Cell.txt "abc"], [Cell.txt ""]])
    "Итого, руб." (by decide) (by decide) (by decide)

/-- C8: under Policy B, margin is `net_profit / revenue * 100` when
revenue is positive and `0` otherwise, and the status is critical exactly
when profit ≤ 0, marginal exactly when profit > 0 and margin < 15, and
healthy otherwise (main.py lines 537-539). -/
theorem claim_C8 (p : Report) (m : List (String × ℚ)) (r : NetProfitResult)
    (h : computeNetProfit p m = some r) :
    r.margin = (if 0 < p.revenue then r.netProfit / p.revenue * 100 else 0)
    ∧ (r.status = .critical ↔ r.netProfit ≤ 0)
    ∧ (r.status = .marginal ↔ (0 < r.netProfit ∧ r.margin < 15))
    ∧ (r.status = .healthy ↔ (0 < r.netProfit ∧ 15 ≤ r.margin)) := by
  unfold computeNetProfit at h
  simp only [] at h
  split at h
  · exact absurd h (by simp)
  · rw [Option.some.injEq] at h
    subst h
    refine ⟨rfl, ?_, ?_, ?_⟩
    · simp only []
      split_ifs with h1 h2 <;> simp_all [not_le]
    · simp only []
      split_ifs with h1 h2 <;> simp_all [not_le, not_lt]
    · simp only []
      split_ifs with h1 h2 <;> simp_all [not_le, not_lt]

/-- Witness for C8 at a concrete profitable report. -/
theorem claim_C8_witness :
    (NetProfitResult.mk 2 8 80 .healthy).margin
      = (if 0 < (Report.mk "итого" (some "sku") none [⟨10, "A", 1⟩] 10 10 0).revenue
         then (NetProfitResult.mk 2 8 80 .healthy).netProfit
              / (Report.mk "итого" (some "sku") none [⟨10, "A", 1⟩] 10 10 0).revenue * 100
         else 0)
    ∧ ((NetProfitResult.mk 2 8 80 .healthy).status = .critical
        ↔ (NetProfitResult.mk 2 8 80 .healthy).netProfit ≤ 0)
    ∧ ((NetProfitResult.mk 2 8 80 .healthy).status = .marginal
        ↔ (0 < (NetProfitResult.mk 2 8 80 .healthy).netProfit
            ∧ (NetProfitResult.mk 2 8 80 .healthy).margin < 15))
    ∧ ((NetProfitResult.mk 2 8 80 .healthy).status = .healthy
        ↔ (0 < (NetProfitResult.mk 2 8 80 .healthy).netProfit
            ∧ 15 ≤ (NetProfitResult.mk 2 8 80 .healthy).margin)) :=
  claim_C8 (Report.mk "итого" (some "sku") none [⟨10, "A", 1⟩] 10 10 0) [("A", 2)]
    (NetProfitResult.mk 2 8 80 .healthy)
    (by norm_num +decide [computeNetProfit, unit_cost, List.lookup, List.filter_cons,
      List.filter_nil, List.map_cons, List.map_nil, List.sum_cons, List.sum_nil, Option.getD])

/-- C9: under Policy A (modelled from the spec, which is authoritative
here because the Policy A calculator is not part of `src/main.py`), for
any tax rate in [0,1] the tax equals `max(revenue_total, 0) * tax_rate`
exactly and is zero whenever aggregate revenue is negative. -/
theorem claim_C9 (cells : List Cell) (rate : ℚ) (h0 : 0 ≤ rate) (h1 : rate ≤ 1) :
    policyA_tax_total cells rate = max (policyA_revenue_total cells) 0 * rate
    ∧ (policyA_revenue_total cells < 0 → policyA_tax_total cells rate = 0) := by
  refine ⟨rfl, fun h => ?_⟩
  unfold policyA_tax_total
  rw [max_eq_right h.le, zero_mul]

/-- Witness for C9 at a one-cell table with negative revenue. -/
theorem claim_C9_witness :
    policyA_tax_total [Cell.txt "-5"] (1/2)
      = max (policyA_revenue_total [Cell.txt "-5"]) 0 * (1/2)
    ∧ (policyA_revenue_total [Cell.txt "-5"] < 0 → policyA_tax_total [Cell.txt "-5"] (1/2) = 0) :=
  claim_C9 [Cell.txt "-5"] (1/2) (by norm_num) (by norm_num)

theorem sum_cogs_filter (m : List (String × ℚ)) (he : m.lookup "" = none) (l : List ParsedRow) :
    ((l.filter (fun r => !(r.sku == ""))).map (fun r => unit_cost m r.sku * r.qty)).sum
      = (l.map (fun r => unit_cost m r.sku * r.qty)).sum := by
  induction l with
  | nil => rfl
  | cons r rest ih =>
    by_cases hs : r.sku = ""
    · have h0 : unit_cost m "" = 0 := by
        unfold unit_cost; rw [he]; rfl
      simp [List.filter_cons, hs, h0, ih]
    · simp [List.filter_cons, hs, ih]

theorem cogs_map_filterMap (header : List String) (ac : String) (m : List (String × ℚ))
    (rows : List (List Cell)) :
    ((rows.filterMap (mkRow header ac)).map (fun r => unit_cost m r.sku * r.qty))
      = rows.filterMap (fun row =>
          match _parse_number (cellAt header ac row) with
          | none => none
          | some _ => some (unit_cost m (skuOfRow header row) * qtyOfRow header row)) := by
  induction rows with
  | nil => rfl
  | cons r rest ih =>
    cases h : _parse_number (cellAt header ac r) <;>
      simp [List.filterMap_cons, mkRow, h, ih]

theorem computeNetProfit_some_shape (p : Report) (m : List (String × ℚ)) (r : NetProfitResult)
    (h : computeNetProfit p m = some r) :
    r.cogsTotal
      = ((p.rows.filter (fun x => !(x.sku == ""))).map (fun x => unit_cost m x.sku * x.qty)).sum
    ∧ r.netProfit = p.total - r.cogsTotal := by
  unfold computeNetProfit at h
  simp only [] at h
  split at h
  · exact absurd h (by simp)
  · rw [Option.some.injEq] at h
    subst h
    exact ⟨rfl, rfl⟩

/-- C4: under Policy B with a non-empty catalog, `cogs_total` is the sum
over retained rows of `unit_cost(sku) * qty` — the quantity defaulting to
1 when the column is absent, unparsable or non-positive, and `unit_cost`
falling back to the catalog's default cost 0 for an absent sku (so rows
with an empty sku, which the branch drops, contribute nothing) — and
`net_profit = net - cogs_total` (main.py lines 532-536). -/
theorem claim_C4 (t : Table) (m : List (String × ℚ)) (p : Report) (r : NetProfitResult)
    (hp : parse_report t = .ok p)
    (hr : computeNetProfit p m = some r)
    (hm : m ≠ [])
    (he : m.lookup "" = none) :
    r.cogsTotal = (t.rows.filterMap (fun row =>
        match _parse_number (cellAt (t.header.map pyStripStr) p.amountCol row) with
        | none => none
        | some _ => some (unit_cost m (skuOfRow (t.header.map pyStripStr) row)
            * qtyOfRow (t.header.map pyStripStr) row))).sum
    ∧ r.netProfit = p.total - r.cogsTotal := by
  obtain ⟨hc, hn⟩ := computeNetProfit_some_shape p m r hr
  obtain ⟨hrows, -, -, -⟩ := parse_report_ok_shape t p hp
  refine ⟨?_, hn⟩
  rw [hc, sum_cogs_filter m he, hrows, cogs_map_filterMap]

/-- Witness for C4 at a two-row table with a one-entry catalog. -/
theorem claim_C4_witness :
    (NetProfitResult.mk 6 11 (1100/17) .healthy).cogsTotal
      = ((Table.mk ["Артикул", "Итого", "Кол-во"]
            [[Cell.txt "A", Cell.txt "10", Cell.txt "2"],
             [Cell.txt "B", Cell.txt "7", Cell.txt "x"]]).rows.filterMap (fun row =>
          match _parse_number (cellAt (["Артикул", "Итого", "Кол-во"].map pyStripStr)
              "Итого" row) with
          | none => none
          | some _ => some (unit_cost [("A", (3 : ℚ))]
                (skuOfRow (["Артикул", "Итого", "Кол-во"].map pyStripStr) row)
              * qtyOfRow (["Артикул", "Итого", "Кол-во"].map pyStripStr) row))).sum
    ∧ (NetProfitResult.mk 6 11 (1100/17) .healthy).netProfit
      = (Report.mk "Итого" (some "Артикул") (some "Кол-во")
          [⟨10, "A", 2⟩, ⟨7, "B", 1⟩] 17 17 0).total
        - (NetProfitResult.mk 6 11 (1100/17) .healthy).cogsTotal :=
  claim_C4
    (Table.mk ["Артикул", "Итого", "Кол-во"]
      [[Cell.txt "A", Cell.txt "10", Cell.txt "2"], [Cell.txt "B", Cell.txt "7", Cell.txt "x"]])
    [("A", 3)]
    (Report.mk "Итого" (some "Артикул") (some "Кол-во") [⟨10, "A", 2⟩, ⟨7, "B", 1⟩] 17 17 0)
    (NetProfitResult.mk 6 11 (1100/17) .healthy)
    (by norm_num +decide [parse_report, mkRow, _parse_number, parseNumL, sanitize, pyStrip,
      pyIsSpace, nbsp, findTok, grabTok, tokVal, skuOfRow, qtyOfRow, find_amount_col,
      find_sku_col, find_qty_col, _norm, squeezeWs, pyLower, hasSub, cellAt, cellStr, pyStripStr,
      List.filterMap_cons, List.filterMap_nil, List.filter_cons, List.filter_nil,
      List.sum_cons, List.sum_nil,
      (by decide : digitsToNat ['1', '0'] = 10), (by decide : digitsToNat ['2'] = 2),
      (by decide : digitsToNat ['7'] = 7)])
    (by norm_num +decide [computeNetProfit, unit_cost, List.lookup, List.filter_cons,
      List.filter_nil, List.map_cons, List.map_nil, List.sum_cons, List.sum_nil, Option.getD,
      (by decide : ("B" == "A") = false), (by decide : ("A" == "A") = true)])
    (by decide) (by decide)

theorem lookup_append_none {β : Type} (a : String) (l1 l2 : List (String × β))
    (h : l1.lookup a = none) : (l1 ++ l2).lookup a = l2.lookup a := by
  induction l1 with
  | nil => rfl
  | cons p rest ih =>
    cases p with
    | mk k b =>
      cases hk : a == k with
      | true => simp [List.lookup, hk] at h
      | false =>
        simp only [List.lookup, hk, List.cons_append] at h ⊢
        exact ih h

theorem lookup_append_single_ne {β : Type} (a k : String) (v : β) (l : List (String × β))
    (h : ¬ a = k) : (l ++ [(k, v)]).lookup a = l.lookup a := by
  induction l with
  | nil =>
    simp only [List.nil_append, List.lookup]
    rw [show (a == k) = false from beq_eq_false_iff_ne.mpr h]
  | cons p rest ih =>
    cases p with
    | mk k' b =>
      cases hk : a == k' with
      | true => simp [List.lookup, hk]
      | false => simp only [List.lookup, hk, List.cons_append]; exact ih

theorem cogs_map_not_mem_lookup (db : CogsDB) (u : Int) (s : String)
    (h : db.any (fun r => r.tgId == u && r.sku == s) = false) :
    (get_cogs_map u db).lookup s = none := by
  induction db with
  | nil => rfl
  | cons r rest ih =>
    rw [List.any_cons, Bool.or_eq_false_iff] at h
    obtain ⟨h1, h2⟩ := h
    unfold get_cogs_map at ih ⊢
    rw [List.filter_cons]
    cases ht : (r.tgId == u) with
    | false => simpa [ht] using ih h2
    | true =>
      rw [ht, Bool.and_eq_false_iff] at h1
      rcases h1 with h1 | h1
      · simp at h1
      · simp only [ht, if_true, List.map_cons, List.lookup]
        rw [show (s == r.sku) = false from by
          rw [beq_eq_false_iff_ne]; intro hss; rw [hss] at h1; simp at h1]
        exact ih h2

theorem get_cogs_map_append (u' : Int) (db : CogsDB) (row : CogsRow) :
    get_cogs_map u' (db ++ [row])
      = get_cogs_map u' db ++ (if row.tgId == u' then [(row.sku, row.cogs)] else []) := by
  unfold get_cogs_map
  rw [List.filter_append, List.map_append]
  congr 1
  cases hb : row.tgId == u' <;> simp [List.filter_cons, hb]

theorem cogs_map_upsert_mem_lookup (db : CogsDB) (u : Int) (s : String) (v : ℚ) (d : String)
    (h : db.any (fun r => r.tgId == u && r.sku == s) = true) :
    (get_cogs_map u (db.map (fun r =>
        if r.tgId == u && r.sku == s then { r with cogs := v, updatedAt := d } else r))).lookup s
      = some v := by
  induction db with
  | nil => simp at h
  | cons r rest ih =>
    rw [List.any_cons, Bool.or_eq_true] at h
    unfold get_cogs_map at ih ⊢
    rw [List.map_cons, List.filter_cons]
    by_cases hp : (r.tgId == u && r.sku == s) = true
    · obtain ⟨ht, hs⟩ := Bool.and_eq_true_iff.mp hp
      simp only [if_pos hp]
      have ht' : ({ r with cogs := v, updatedAt := d } : CogsRow).tgId == u := ht
      rw [ht']
      simp only [if_true, List.map_cons, List.lookup]
      rw [show (s == ({ r with cogs := v, updatedAt := d } : CogsRow).sku) = true from by
        simp only []; rw [beq_iff_eq]; exact (beq_iff_eq.mp hs).symm]
    · have h2 : rest.any (fun r => r.tgId == u && r.sku == s) = true := by
        rcases h with h | h
        · exact absurd h hp
        · exact h
      rw [if_neg hp]
      cases ht : (r.tgId == u) with
      | false => simpa [ht] using ih h2
      | true =>
        simp only [ht, if_true, List.map_cons, List.lookup]
        have hs : (r.sku == s) = false := by
          rcases Bool.and_eq_false_iff.mp (Bool.not_eq_true _ |>.mp hp) with h' | h'
          · rw [ht] at h'; simp at h'
          · exact h'
        rw [show (s == r.sku) = false from by
          rw [beq_eq_false_iff_ne]
          intro hss
          rw [beq_eq_false_iff_ne] at hs
          exact hs hss.symm]
        exact ih h2

theorem cogs_map_upsert_frame_lookup (db : CogsDB) (u : Int) (s : String) (v : ℚ) (d : String)
    (u' : Int) (s' : String) (hne : ¬(u' = u ∧ s' = s)) :
    (get_cogs_map u' (db.map (fun r =>
        if r.tgId == u && r.sku == s then { r with cogs := v, updatedAt := d } else r))).lookup s'
      = (get_cogs_map u' db).lookup s' := by
  induction db with
  | nil => rfl
  | cons r rest ih =>
    unfold get_cogs_map at ih ⊢
    rw [List.map_cons, List.filter_cons, List.filter_cons]
    by_cases hp : (r.tgId == u && r.sku == s) = true
    · obtain ⟨ht, hs⟩ := Bool.and_eq_true_iff.mp hp
      rw [if_pos hp]
      have e1 : (({ r with cogs := v, updatedAt := d } : CogsRow).tgId == u') = (r.tgId == u') :=
        rfl
      rw [e1]
      cases ht' : (r.tgId == u') with
      | false => simpa [ht'] using ih
      | true =>
        simp only [if_true, List.map_cons, List.lookup]
        have hss : (s' == r.sku) = false := by
          rw [beq_eq_false_iff_ne]
          intro he
          exact hne ⟨by rw [← beq_iff_eq.mp ht', beq_iff_eq.mp ht],
            by rw [he, beq_iff_eq.mp hs]⟩
        rw [show (s' == ({ r with cogs := v, updatedAt := d } : CogsRow).sku) = false from hss]
        exact ih
    · rw [if_neg hp]
      cases ht' : (r.tgId == u') with
      | false => simpa [ht'] using ih
      | true =>
        simp only [ht', if_true, List.map_cons, List.lookup]
        cases hss : (s' == r.sku) with
        | true => rfl
        | false => exact ih

theorem find_row_upsert_frame (db : CogsDB) (u : Int) (s : String) (v : ℚ) (d : String)
    (u' : Int) (s' : String) (hne : ¬(u' = u ∧ s' = s)) :
    (db.map (fun r =>
        if r.tgId == u && r.sku == s then { r with cogs := v, updatedAt := d } else r)).find?
        (fun r => r.tgId == u' && r.sku == s')
      = db.find? (fun r => r.tgId == u' && r.sku == s') := by
  induction db with
  | nil => rfl
  | cons r rest ih =>
    rw [List.map_cons, List.find?_cons, List.find?_cons]
    by_cases hp : (r.tgId == u && r.sku == s) = true
    · obtain ⟨ht, hs⟩ := Bool.and_eq_true_iff.mp hp
      have hkey : (r.tgId == u' && r.sku == s') = false := by
        rw [Bool.and_eq_false_iff]
        by_cases h1 : (r.tgId == u') = true
        · right
          rw [beq_eq_false_iff_ne]
          intro he
          exact hne ⟨by rw [← beq_iff_eq.mp h1, beq_iff_eq.mp ht],
            by rw [← he, beq_iff_eq.mp hs]⟩
        · left; exact Bool.not_eq_true _ |>.mp h1
      have hkey' : (({ r with cogs := v, updatedAt := d } : CogsRow).tgId == u'
          && ({ r with cogs := v, updatedAt := d } : CogsRow).sku == s') = false := hkey
      rw [if_pos hp, hkey']
      exact ih
    · rw [if_neg hp]
      cases hk : (r.tgId == u' && r.sku == s') <;> [exact ih; rfl]

theorem find_append_singleton {p : CogsRow → Bool} (db : CogsDB) (row : CogsRow)
    (h : p row = false) : (db ++ [row]).find? p = db.find? p := by
  induction db with
  | nil => simp [List.find?, h]
  | cons r rest ih =>
    rw [List.cons_append, List.find?_cons, List.find?_cons]
    cases hr : p r with
    | true => rfl
    | false => exact ih

/-- C10: after `upsert_cogs u s v`, `get_cogs_map u` binds `s` to `v`,
and every stored (owner, sku) pair other than `(u, s)` — the retrieved
maps of every owner as well as the stored rows themselves — is unchanged
(main.py lines 85-96). -/
theorem claim_C10 (db : CogsDB) (u : Int) (s : String) (v : ℚ) (d : String) :
    ((get_cogs_map u (upsert_cogs u s v d db)).lookup s = some v)
    ∧ (∀ (u' : Int) (s' : String), ¬(u' = u ∧ s' = s) →
        (get_cogs_map u' (upsert_cogs u s v d db)).lookup s'
          = (get_cogs_map u' db).lookup s')
    ∧ (∀ (u' : Int) (s' : String), ¬(u' = u ∧ s' = s) →
        (upsert_cogs u s v d db).find? (fun r => r.tgId == u' && r.sku == s')
          = db.find? (fun r => r.tgId == u' && r.sku == s')) := by
  unfold upsert_cogs
  by_cases h : (db.any (fun r => r.tgId == u && r.sku == s)) = true
  · rw [if_pos h]
    exact ⟨cogs_map_upsert_mem_lookup db u s v d h,
      fun u' s' hne => cogs_map_upsert_frame_lookup db u s v d u' s' hne,
      fun u' s' hne => find_row_upsert_frame db u s v d u' s' hne⟩
  · have hf : db.any (fun r => r.tgId == u && r.sku == s) = false := by
      revert h
      cases db.any (fun r => r.tgId == u && r.sku == s) <;> simp
    rw [if_neg h]
    refine ⟨?_, ?_, ?_⟩
    · rw [get_cogs_map_append]
      rw [show ((⟨u, s, v, d⟩ : CogsRow).tgId == u) = true from by simp]
      rw [if_pos rfl]
      rw [lookup_append_none s _ _ (cogs_map_not_mem_lookup db u s hf)]
      simp [List.lookup]
    · intro u' s' hne
      rw [get_cogs_map_append]
      by_cases hu : u' = u
      · subst hu
        rw [show ((⟨u', s, v, d⟩ : CogsRow).tgId == u') = true from by simp, if_pos rfl]
        exact lookup_append_single_ne s' s v _ (fun he => hne ⟨rfl, he⟩)
      · rw [show ((⟨u, s, v, d⟩ : CogsRow).tgId == u') = false from by
          simp only []
          rw [beq_eq_false_iff_ne]
          exact fun he => hu he.symm]
        simp
    · intro u' s' hne
      apply find_append_singleton
      simp only []
      rw [Bool.and_eq_false_iff]
      by_cases hu : u' = u
      · right
        rw [beq_eq_false_iff_ne]
        exact fun he => hne ⟨hu, he.symm⟩
      · left
        rw [beq_eq_false_iff_ne]
        exact fun he => hu he.symm

/-- Witness for C10: inserting a fresh sku for owner 1 leaves owner 1's
other sku untouched. -/
theorem claim_C10_witness :
    ((get_cogs_map 1 (upsert_cogs 1 "B" 9 "d1" [⟨1, "A", 5, "d0"⟩])).lookup "B" = some 9)
    ∧ ((get_cogs_map 1 (upsert_cogs 1 "B" 9 "d1" [⟨1, "A", 5, "d0"⟩])).lookup "A"
        = (get_cogs_map 1 [⟨1, "A", 5, "d0"⟩]).lookup "A") := by
  have h := claim_C10 [⟨1, "A", 5, "d0"⟩] 1 "B" 9 "d1"
  exact ⟨h.1, h.2.1 1 "A" (by decide)⟩

theorem mem_le_foldr_max (l : List ℕ) (x : ℕ) (hx : x ∈ l) : x ≤ l.foldr max 0 := by
  induction l with
  | nil => cases hx
  | cons a rest ih =>
    rcases List.mem_cons.mp hx with h | h
    · subst h; exact le_max_left _ _
    · exact le_trans (ih h) (le_max_right _ _)

theorem foldr_max_mem (l : List ℕ) (h : l.foldr max 0 ≠ 0) : l.foldr max 0 ∈ l := by
  induction l with
  | nil => exact absurd rfl h
  | cons a rest ih =>
    by_cases hm : rest.foldr max 0 ≤ a
    · rw [List.foldr_cons, max_eq_left hm]
      exact List.mem_cons_self a rest
    · rw [List.foldr_cons, max_eq_right (le_of_not_le hm)]
      rw [List.foldr_cons, max_eq_right (le_of_not_le hm)] at h
      exact List.mem_cons_of_mem a (ih h)

theorem bestAux_all_le (t : Table) (cols : List String) (best : Option String) (bs : ℕ)
    (h : ∀ c ∈ cols, numScore t c ≤ bs) : bestAux t cols best bs = best := by
  induction cols with
  | nil => rfl
  | cons c rest ih =>
    unfold bestAux
    rw [if_neg (not_lt.mpr (h c (List.mem_cons_self c rest)))]
    exact ih (fun c' hc' => h c' (List.mem_cons_of_mem c hc'))

theorem bestAux_spec (t : Table) (cols : List String) (best : Option String) (bs : ℕ)
    (h : bs < (cols.map (numScore t)).foldr max 0) :
    bestAux t cols best bs
      = cols.find? (fun c => numScore t c == (cols.map (numScore t)).foldr max 0) := by
  induction cols generalizing best bs with
  | nil => simp at h
  | cons c rest ih =>
    have hM : ((c :: rest).map (numScore t)).foldr max 0
        = max (numScore t c) ((rest.map (numScore t)).foldr max 0) := rfl
    unfold bestAux
    by_cases hc : bs < numScore t c
    · rw [if_pos hc]
      by_cases hr : (rest.map (numScore t)).foldr max 0 ≤ numScore t c
      · have hMc : ((c :: rest).map (numScore t)).foldr max 0 = numScore t c := by
          rw [hM, max_eq_left hr]
        rw [List.find?_cons_of_pos _ (by rw [beq_iff_eq]; exact hMc.symm)]
        exact bestAux_all_le t rest (some c) (numScore t c) (fun c' hc' =>
          le_trans (mem_le_foldr_max _ _ (List.mem_map_of_mem _ hc')) hr)
      · have hlt : numScore t c < (rest.map (numScore t)).foldr max 0 := not_le.mp hr
        have hMr : ((c :: rest).map (numScore t)).foldr max 0
            = (rest.map (numScore t)).foldr max 0 := by
          rw [hM, max_eq_right hlt.le]
        rw [List.find?_cons_of_neg _ (by
          rw [beq_iff_eq, hMr]
          exact hlt.ne)]
        rw [hMr]
        exact ih (some c) (numScore t c) hlt
    · rw [if_neg hc]
      have hcM : numScore t c < ((c :: rest).map (numScore t)).foldr max 0 :=
        lt_of_le_of_lt (le_of_not_lt hc) h
      have hr : numScore t c ≤ (rest.map (numScore t)).foldr max 0 := by
        by_contra hAbs
        rw [hM, max_eq_left (le_of_not_le hAbs)] at hcM
        exact lt_irrefl _ hcM
      have hMr : ((c :: rest).map (numScore t)).foldr max 0
          = (rest.map (numScore t)).foldr max 0 := by
        rw [hM, max_eq_right hr]
      rw [List.find?_cons_of_neg _ (by rw [beq_iff_eq]; exact hcM.ne)]
      rw [hMr]
      rw [hMr] at hcM h
      exact ih best bs h

/-- C7: when no column label matches an amount synonym, the resolved
amount column is the one whose cells normalize as numbers in the most
rows, leftmost on ties (provided some cell normalizes at all and no
column label is the empty string, which the source's truthiness test
would reject).  `amountColSpec` states the spec's words; the code's
fallback provably selects that column. -/
theorem claim_C7 (t : Table)
    (h1 : find_amount_col (t.header.map pyStripStr) = none)
    (h2 : 0 < maxScore ⟨t.header.map pyStripStr, t.rows⟩)
    (h3 : ¬ "" ∈ t.header.map pyStripStr) :
    (parse_report t).toOption.map Report.amountCol
      = amountColSpec ⟨t.header.map pyStripStr, t.rows⟩ := by
  have hM : maxScore ⟨t.header.map pyStripStr, t.rows⟩ ≠ 0 := h2.ne'
  have hbest : bestNumericCol ⟨t.header.map pyStripStr, t.rows⟩
      = (t.header.map pyStripStr).find? (fun c =>
          numScore ⟨t.header.map pyStripStr, t.rows⟩ c
            == maxScore ⟨t.header.map pyStripStr, t.rows⟩) :=
    bestAux_spec ⟨t.header.map pyStripStr, t.rows⟩ (t.header.map pyStripStr) none 0 h2
  have hmem : maxScore ⟨t.header.map pyStripStr, t.rows⟩
      ∈ (t.header.map pyStripStr).map (numScore ⟨t.header.map pyStripStr, t.rows⟩) :=
    foldr_max_mem _ hM
  obtain ⟨c, hcmem, hcscore⟩ := List.mem_map.mp hmem
  obtain ⟨c0, hc0⟩ : ∃ c0, (t.header.map pyStripStr).find? (fun c =>
      numScore ⟨t.header.map pyStripStr, t.rows⟩ c
        == maxScore ⟨t.header.map pyStripStr, t.rows⟩) = some c0 :=
    Option.isSome_iff_exists.mp (List.find?_isSome.mpr
      ⟨c, hcmem, by rw [beq_iff_eq]; exact hcscore⟩)
  have hc0mem : c0 ∈ t.header.map pyStripStr := List.mem_of_find?_eq_some hc0
  have hc0ne : ¬ c0 = "" := fun he => h3 (he ▸ hc0mem)
  have hrows : t.rows.isEmpty = false := by
    cases hrows0 : t.rows with
    | nil =>
      exfalso
      apply hM
      have : numScore ⟨t.header.map pyStripStr, t.rows⟩ c = 0 := by
        unfold numScore
        rw [hrows0]
        rfl
      rw [← hcscore, this] at h2
      exact absurd h2 (lt_irrefl 0)
    | cons a l => rfl
  have hheader : t.header.isEmpty = false := by
    cases hh0 : t.header with
    | nil => rw [hh0] at hc0mem; cases hc0mem
    | cons a l => rfl
  unfold parse_report
  rw [if_neg (by rw [hrows, hheader]; simp)]
  simp only []
  rw [h1, hbest, hc0]
  simp only [Option.map]
  rw [if_neg hc0ne]
  unfold amountColSpec
  rw [if_neg hM, hc0]
  rfl

/-- Witness for C7 at a table with one numeric column and no synonym
match. -/
theorem claim_C7_witness :
    (parse_report (Table.mk ["a", "b"] [[Cell.txt "x", Cell.txt "5"]])).toOption.map
        Report.amountCol
      = amountColSpec ⟨["a", "b"].map pyStripStr, [[Cell.txt "x", Cell.txt "5"]]⟩ :=
  claim_C7 (Table.mk ["a", "b"] [[Cell.txt "x", Cell.txt "5"]])
    (by decide) (by decide) (by decide)

theorem isDigit_plain {c : Char} (h : c.isDigit = true) :
    ¬ c = ' ' ∧ ¬ c = nbsp ∧ ¬ c = ',' ∧ pyIsSpace c = false ∧ ¬ c = '-' ∧ ¬ c = '.' := by
  refine ⟨?_, ?_, ?_, ?_, ?_, ?_⟩
  · intro he; rw [he] at h; exact absurd h (by decide)
  · intro he; rw [he] at h; exact absurd h (by decide)
  · intro he; rw [he] at h; exact absurd h (by decide)
  · cases hc : pyIsSpace c with
    | false => rfl
    | true =>
      exfalso
      simp only [pyIsSpace, Bool.or_eq_true, beq_iff_eq] at hc
      rcases hc with ((((((he | he) | he) | he) | he) | he) | he) <;>
        (rw [he] at h; exact absurd h (by decide))
  · intro he; rw [he] at h; exact absurd h (by decide)
  · intro he; rw [he] at h; exact absurd h (by decide)

theorem takeWhile_all {p : Char → Bool} (l : List Char) (h : ∀ c ∈ l, p c = true) :
    l.takeWhile p = l := by
  induction l with
  | nil => rfl
  | cons c rest ih =>
    rw [List.takeWhile_cons, h c (List.mem_cons_self c rest)]
    rw [ih (fun c' hc' => h c' (List.mem_cons_of_mem c hc'))]
    simp

theorem dropWhile_all {p : Char → Bool} (l : List Char) (h : ∀ c ∈ l, p c = true) :
    l.dropWhile p = [] := by
  induction l with
  | nil => rfl
  | cons c rest ih =>
    rw [List.dropWhile_cons, h c (List.mem_cons_self c rest)]
    simp only [if_true]
    exact ih (fun c' hc' => h c' (List.mem_cons_of_mem c hc'))

theorem head_stop_takeWhile {p : Char → Bool} (b : List Char)
    (hb : (b.head?.map p).getD false = false) : b.takeWhile p = [] := by
  cases b with
  | nil => rfl
  | cons c rest =>
    simp only [List.head?_cons] at hb
    have hb' : p c = false := by simpa using hb
    rw [List.takeWhile_cons, hb']
    simp

theorem head_stop_dropWhile {p : Char → Bool} (b : List Char)
    (hb : (b.head?.map p).getD false = false) : b.dropWhile p = b := by
  cases b with
  | nil => rfl
  | cons c rest =>
    simp only [List.head?_cons] at hb
    have hb' : p c = false := by simpa using hb
    rw [List.dropWhile_cons, hb']
    simp

theorem takeWhile_append_stop {p : Char → Bool} (a b : List Char)
    (ha : ∀ c ∈ a, p c = true) (hb : (b.head?.map p).getD false = false) :
    (a ++ b).takeWhile p = a := by
  induction a with
  | nil => exact head_stop_takeWhile b hb
  | cons c rest ih =>
    rw [List.cons_append, List.takeWhile_cons, ha c (List.mem_cons_self c rest)]
    rw [ih (fun c' hc' => ha c' (List.mem_cons_of_mem c hc'))]
    simp

theorem dropWhile_append_stop {p : Char → Bool} (a b : List Char)
    (ha : ∀ c ∈ a, p c = true) (hb : (b.head?.map p).getD false = false) :
    (a ++ b).dropWhile p = b := by
  induction a with
  | nil => exact head_stop_dropWhile b hb
  | cons c rest ih =>
    rw [List.cons_append, List.dropWhile_cons, ha c (List.mem_cons_self c rest)]
    simp only [if_true]
    exact ih (fun c' hc' => ha c' (List.mem_cons_of_mem c hc'))

theorem sanitize_append (a b : List Char) : sanitize (a ++ b) = sanitize a ++ sanitize b := by
  simp [sanitize, List.filter_append, List.map_append]

theorem sanitize_eq_self (l : List Char)
    (h : ∀ c ∈ l, ¬ c = ' ' ∧ ¬ c = nbsp ∧ ¬ c = ',') : sanitize l = l := by
  induction l with
  | nil => rfl
  | cons c rest ih =>
    obtain ⟨h1, h2, h3⟩ := h c (List.mem_cons_self c rest)
    have ih' := ih (fun c' hc' => h c' (List.mem_cons_of_mem c hc'))
    have hg : (!(c == ' ') && !(c == nbsp)) = true := by
      simp [beq_eq_false_iff_ne, h1, h2]
    simp only [sanitize] at ih'
    simp [sanitize, List.filter_cons, hg, h3]
    exact ih'

theorem dropWhile_no_space (l : List Char) (h : ∀ c ∈ l, pyIsSpace c = false) :
    l.dropWhile pyIsSpace = l := by
  cases l with
  | nil => rfl
  | cons c rest =>
    rw [List.dropWhile_cons, h c (List.mem_cons_self c rest)]
    simp

theorem pyStrip_eq_self (l : List Char) (h : ∀ c ∈ l, pyIsSpace c = false) :
    pyStrip l = l := by
  unfold pyStrip
  rw [dropWhile_no_space l h,
    dropWhile_no_space l.reverse (fun c hc => h c (List.mem_reverse.mp hc)),
    List.reverse_reverse]

theorem findTok_skip (c : Char) (l : List Char) (h1 : c.isDigit = false) (h2 : ¬ c = '-') :
    findTok (c :: l) = findTok l := by
  conv_lhs => rw [findTok.eq_def]
  simp only []
  rw [if_neg h2, if_neg (show ¬ (c.isDigit = true) from by simp [h1])]

theorem findTok_append_noise (n l : List Char)
    (h : ∀ c ∈ n, c.isDigit = false ∧ ¬ c = '-') : findTok (n ++ l) = findTok l := by
  induction n with
  | nil => rfl
  | cons c rest ih =>
    obtain ⟨h1, h2⟩ := h c (List.mem_cons_self c rest)
    rw [List.cons_append, findTok_skip c _ h1 h2]
    exact ih (fun c' hc' => h c' (List.mem_cons_of_mem c hc'))

theorem grabTok_frac (neg : Bool) (ints f m : List Char)
    (hi : ∀ c ∈ ints, c.isDigit = true)
    (hf : ∀ c ∈ f, c.isDigit = true) (hfne : f ≠ [])
    (hm : (m.head?.map Char.isDigit).getD false = false) :
    grabTok neg (ints ++ '.' :: (f ++ m)) = ⟨neg, ints, some f⟩ := by
  unfold grabTok
  simp only []
  rw [takeWhile_append_stop ints ('.' :: (f ++ m)) hi rfl,
    dropWhile_append_stop ints ('.' :: (f ++ m)) hi rfl]
  simp only []
  cases f with
  | nil => exact absurd rfl hfne
  | cons f0 frest =>
    rw [if_pos (by simp [hf f0 (List.mem_cons_self f0 frest)])]
    rw [takeWhile_append_stop (f0 :: frest) m hf hm]

theorem grabTok_nofrac (neg : Bool) (ints m : List Char)
    (hi : ∀ c ∈ ints, c.isDigit = true)
    (hm : (m.head?.map Char.isDigit).getD false = false)
    (hm2 : ∀ r, m = '.' :: r → (r.head?.map Char.isDigit).getD false = false) :
    grabTok neg (ints ++ m) = ⟨neg, ints, none⟩ := by
  unfold grabTok
  simp only []
  rw [takeWhile_append_stop ints m hi hm, dropWhile_append_stop ints m hi hm]
  split
  · rw [if_neg (by simp [hm2 _ rfl])]
  · rfl

theorem findTok_token (t : NumToken) (ht : t.Wf) (m : List Char)
    (hm : (m.head?.map Char.isDigit).getD false = false)
    (hm2 : t.frac = none → ∀ r, m = '.' :: r → (r.head?.map Char.isDigit).getD false = false) :
    findTok (tokChars t ++ m) = some ⟨t.neg, t.ints, t.frac⟩ := by
  obtain ⟨neg, ints, frac⟩ := t
  obtain ⟨hne, hi, hfr⟩ := ht
  simp only [] at hne hi hfr hm2 ⊢
  cases ints with
  | nil => exact absurd rfl hne
  | cons i0 irest =>
    have hi0 : i0.isDigit = true := hi i0 (List.mem_cons_self i0 irest)
    have hi0' : ¬ i0 = '-' := (isDigit_plain hi0).2.2.2.2.1
    cases frac with
    | none =>
      cases neg with
      | false =>
        have hsh : tokChars ⟨false, i0 :: irest, none⟩ ++ m = i0 :: (irest ++ m) := by
          simp [tokChars]
        rw [hsh]
        conv_lhs => rw [findTok.eq_def]
        simp only []
        rw [if_neg hi0', if_pos hi0]
        rw [show i0 :: (irest ++ m) = (i0 :: irest) ++ m from rfl]
        rw [grabTok_nofrac false (i0 :: irest) m hi hm (hm2 rfl)]
      | true =>
        have hsh : tokChars ⟨true, i0 :: irest, none⟩ ++ m = '-' :: ((i0 :: irest) ++ m) := by
          simp [tokChars]
        rw [hsh]
        conv_lhs => rw [findTok.eq_def]
        simp only [List.cons_append]
        rw [if_pos trivial, if_pos hi0]
        rw [show i0 :: (irest ++ m) = (i0 :: irest) ++ m from rfl]
        rw [grabTok_nofrac true (i0 :: irest) m hi hm (hm2 rfl)]
    | some f =>
      obtain ⟨hfne, hf⟩ := hfr f rfl
      cases neg with
      | false =>
        have hsh : tokChars ⟨false, i0 :: irest, some f⟩ ++ m
            = i0 :: (irest ++ '.' :: (f ++ m)) := by
          simp [tokChars]
        rw [hsh]
        conv_lhs => rw [findTok.eq_def]
        simp only []
        rw [if_neg hi0', if_pos hi0]
        rw [show i0 :: (irest ++ '.' :: (f ++ m)) = (i0 :: irest) ++ '.' :: (f ++ m) from rfl]
        rw [grabTok_frac false (i0 :: irest) f m hi hf hfne hm]
      | true =>
        have hsh : tokChars ⟨true, i0 :: irest, some f⟩ ++ m
            = '-' :: ((i0 :: irest) ++ '.' :: (f ++ m)) := by
          simp [tokChars]
        rw [hsh]
        conv_lhs => rw [findTok.eq_def]
        simp only [List.cons_append]
        rw [if_pos trivial, if_pos hi0]
        rw [show i0 :: (irest ++ '.' :: (f ++ m)) = (i0 :: irest) ++ '.' :: (f ++ m) from rfl]
        rw [grabTok_frac true (i0 :: irest) f m hi hf hfne hm]

theorem plain_tokChars (t : NumToken) (ht : t.Wf) :
    ∀ c ∈ tokChars t, (¬ c = ' ') ∧ (¬ c = nbsp) ∧ (¬ c = ',') ∧ pyIsSpace c = false := by
  obtain ⟨hne, hi, hfr⟩ := ht
  intro c hcmem
  unfold tokChars at hcmem
  rw [List.append_assoc, List.mem_append] at hcmem
  rcases hcmem with hcmem | hcmem
  · cases hneg : t.neg with
    | false => rw [hneg] at hcmem; cases hcmem
    | true =>
      rw [hneg] at hcmem
      rcases List.mem_singleton.mp hcmem with rfl
      exact ⟨by decide, by decide, by decide, by decide⟩
  · rw [List.mem_append] at hcmem
    rcases hcmem with hcmem | hcmem
    · have := isDigit_plain (hi c hcmem)
      exact ⟨this.1, this.2.1, this.2.2.1, this.2.2.2.1⟩
    · cases hfrac : t.frac with
      | none => rw [hfrac] at hcmem; cases hcmem
      | some f =>
        rw [hfrac] at hcmem
        rcases List.mem_cons.mp hcmem with rfl | hcf
        · exact ⟨by decide, by decide, by decide, by decide⟩
        · have := isDigit_plain ((hfr f hfrac).2 c hcf)
          exact ⟨this.1, this.2.1, this.2.2.1, this.2.2.2.1⟩

theorem sanitize_mem_of_noise (n : List Char)
    (h : ∀ c ∈ n, c.isDigit = false ∧ ¬ c = '-' ∧ (c = ' ' ∨ c = nbsp ∨ pyIsSpace c = false)) :
    ∀ c ∈ sanitize n, c.isDigit = false ∧ ¬ c = '-' ∧ pyIsSpace c = false := by
  intro c hcmem
  unfold sanitize at hcmem
  rw [List.mem_map] at hcmem
  obtain ⟨c0, hc0mem, hc0⟩ := hcmem
  rw [List.mem_filter] at hc0mem
  obtain ⟨hc0n, hc0f⟩ := hc0mem
  obtain ⟨hd, hm, hw⟩ := h c0 hc0n
  have hc0s : ¬ c0 = ' ' ∧ ¬ c0 = nbsp := by
    constructor <;> (intro he; rw [he] at hc0f; simp at hc0f)
  by_cases hcomma : c0 = ','
  · rw [if_pos hcomma] at hc0
    rw [← hc0]
    exact ⟨by decide, by decide, by decide⟩
  · rw [if_neg hcomma] at hc0
    rw [← hc0]
    refine ⟨hd, hm, ?_⟩
    rcases hw with hw | hw | hw
    · exact absurd hw hc0s.1
    · exact absurd hw hc0s.2
    · exact hw

theorem sanitize_space_free (n : List Char)
    (h : ∀ c ∈ n, c = ' ' ∨ c = nbsp ∨ pyIsSpace c = false) :
    ∀ c ∈ sanitize n, pyIsSpace c = false := by
  intro c hcmem
  unfold sanitize at hcmem
  rw [List.mem_map] at hcmem
  obtain ⟨c0, hc0mem, hc0⟩ := hcmem
  rw [List.mem_filter] at hc0mem
  obtain ⟨hc0n, hc0f⟩ := hc0mem
  have hc0s : ¬ c0 = ' ' ∧ ¬ c0 = nbsp := by
    constructor <;> (intro he; rw [he] at hc0f; simp at hc0f)
  by_cases hcomma : c0 = ','
  · rw [if_pos hcomma] at hc0
    rw [← hc0]
    decide
  · rw [if_neg hcomma] at hc0
    rw [← hc0]
    rcases h c0 hc0n with hw | hw | hw
    · exact absurd hw hc0s.1
    · exact absurd hw hc0s.2
    · exact hw

theorem parseNumL_noise (n1 : List Char) (t : NumToken) (n2 : List Char)
    (h1 : NoiseBefore n1) (ht : t.Wf) (h2 : NoiseAfter t n2) :
    parseNumL (n1 ++ tokChars t ++ n2) = some (tokVal t) := by
  obtain ⟨ha, hb, hc⟩ := h2
  have htokplain := plain_tokChars t ht
  have hsan1 := sanitize_mem_of_noise n1 h1
  have hsan2 := sanitize_space_free n2 hc
  have hsantok : sanitize (tokChars t) = tokChars t :=
    sanitize_eq_self _ (fun c hc' => ⟨(htokplain c hc').1, (htokplain c hc').2.1,
      (htokplain c hc').2.2.1⟩)
  unfold parseNumL
  rw [sanitize_append, sanitize_append, hsantok]
  rw [pyStrip_eq_self _ (by
    intro c hcmem
    rw [List.mem_append] at hcmem
    rcases hcmem with hcmem | hcmem
    · rw [List.mem_append] at hcmem
      rcases hcmem with hcmem | hcmem
      · exact (hsan1 c hcmem).2.2
      · exact (htokplain c hcmem).2.2.2
    · exact hsan2 c hcmem)]
  rw [List.append_assoc]
  rw [findTok_append_noise (sanitize n1) _ (fun c hc' =>
    ⟨(hsan1 c hc').1, (hsan1 c hc').2.1⟩)]
  rw [findTok_token t ht (sanitize n2) ha hb]
  rfl

/-- C6 (amended): the normalizer removes ordinary and non-breaking
spaces anywhere in the value, replaces every comma with a decimal point
unconditionally — rather than only when no decimal point exists — and
returns the first signed decimal token of the cleaned text, tolerating
surrounding noise that contains no digits, minus signs, or exotic
whitespace. -/
theorem claim_C6_amended :
    (∀ l : List Char,
        parseNumL (l.filter (fun c => !(c == ' ') && !(c == nbsp))) = parseNumL l)
    ∧ (∀ l : List Char,
        parseNumL (l.map (fun c => if c = ',' then '.' else c)) = parseNumL l)
    ∧ (∀ (n1 : List Char) (t : NumToken) (n2 : List Char),
        NoiseBefore n1 → t.Wf → NoiseAfter t n2 →
        parseNumL (n1 ++ tokChars t ++ n2) = some (tokVal t)) := by
  refine ⟨?_, ?_, fun n1 t n2 h1 ht h2 => parseNumL_noise n1 t n2 h1 ht h2⟩
  · intro l
    have hsan : sanitize (l.filter (fun c => !(c == ' ') && !(c == nbsp))) = sanitize l := by
      unfold sanitize
      rw [List.filter_filter]
      congr 1
      apply List.filter_congr
      intro c _
      rw [Bool.and_self]
    unfold parseNumL
    rw [hsan]
  · intro l
    have hsan : sanitize (l.map (fun c => if c = ',' then '.' else c)) = sanitize l := by
      unfold sanitize
      rw [List.filter_map, List.map_map]
      have e1 : l.filter
            ((fun c => !(c == ' ') && !(c == nbsp)) ∘ (fun c => if c = ',' then '.' else c))
          = l.filter (fun c => !(c == ' ') && !(c == nbsp)) := by
        apply List.filter_congr
        intro c _
        by_cases hcc : c = ','
        · rw [hcc]; decide
        · simp only [Function.comp_apply, if_neg hcc]
      rw [e1]
      apply List.map_congr_left
      intro c _
      by_cases hcc : c = ','
      · rw [hcc]; decide
      · simp only [Function.comp_apply, if_neg hcc]
    unfold parseNumL
    rw [hsan]

/-- Counterexample to C6: "1,234.56" contains both a comma and a decimal
point; the code replaces the comma by a point and parses 1.234, whereas
the claim requires the point to act as the decimal separator (1234.56 —
or 1 under a comma-as-delimiter reading). -/
theorem claim_C6_counterexample :
    _parse_number (Cell.txt "1,234.56") = some (617/500)
    ∧ ¬ ((617/500 : ℚ) = 123456/100) ∧ ¬ ((617/500 : ℚ) = 1) := by
  refine ⟨?_, by norm_num, by norm_num⟩
  norm_num +decide [_parse_number, parseNumL, sanitize, pyStrip, pyIsSpace, nbsp,
    findTok, grabTok, tokVal,
    (by decide : digitsToNat ['1'] = 1), (by decide : digitsToNat ['2', '3', '4'] = 234)]

/-- Witness for the amended C6: a signed decimal surrounded by currency
noise, and comma-insensitivity on a concrete value. -/
theorem claim_C6_amended_witness :
    parseNumL (['$'] ++ tokChars ⟨true, ['1', '2'], some ['5']⟩ ++ ['€'])
      = some (tokVal ⟨true, ['1', '2'], some ['5']⟩)
    ∧ parseNumL ("1,5".toList.map (fun c => if c = ',' then '.' else c))
      = parseNumL "1,5".toList := by
  have h := claim_C6_amended
  refine ⟨h.2.2 ['$'] ⟨true, ['1', '2'], some ['5']⟩ ['€'] (by unfold NoiseBefore; decide)
    ⟨by decide, by decide, fun f hf => by cases hf; exact ⟨by decide, by decide⟩⟩
    ⟨by decide, fun hf => Option.noConfusion hf, by decide⟩,
    h.2.1 "1,5".toList⟩

theorem digitsToNat_acc (l : List Char) (acc : ℕ) :
    l.foldl (fun a c => 10 * a + (c.toNat - 48)) acc = acc * 10 ^ l.length + digitsToNat l := by
  induction l generalizing acc with
  | nil => simp [digitsToNat]
  | cons c rest ih =>
    rw [List.foldl_cons, ih (10 * acc + (c.toNat - 48))]
    have hr : digitsToNat (c :: rest)
        = (10 * 0 + (c.toNat - 48)) * 10 ^ rest.length + digitsToNat rest := by
      unfold digitsToNat
      rw [List.foldl_cons]
      exact ih (10 * 0 + (c.toNat - 48))
    rw [hr, List.length_cons, pow_succ]
    ring

theorem digitsToNat_append (a b : List Char) :
    digitsToNat (a ++ b) = digitsToNat a * 10 ^ b.length + digitsToNat b := by
  unfold digitsToNat
  rw [List.foldl_append]
  exact digitsToNat_acc b _

theorem digitsToNat_replicate_zero (j : ℕ) : digitsToNat (List.replicate j '0') = 0 := by
  induction j with
  | zero => rfl
  | succ n ih =>
    rw [List.replicate_succ]
    unfold digitsToNat
    rw [List.foldl_cons]
    rw [show (10 * 0 + ('0'.toNat - 48)) = 0 from by decide]
    exact ih

theorem digitChar_isDigit (d : ℕ) (h : d < 10) : (Nat.digitChar d).isDigit = true := by
  interval_cases d <;> decide

theorem digitsToNat_digitChar (d : ℕ) (h : d < 10) : digitsToNat [Nat.digitChar d] = d := by
  interval_cases d <;> decide

theorem natDigitsAux_digits (fuel : ℕ) :
    ∀ (n : ℕ), ∀ c ∈ natDigitsAux fuel n, c.isDigit = true := by
  induction fuel with
  | zero => intro n c hc; cases hc
  | succ f ih =>
    intro n c hc
    simp only [natDigitsAux] at hc
    by_cases h0 : n = 0
    · rw [if_pos h0] at hc; cases hc
    · rw [if_neg h0] at hc
      rcases List.mem_append.mp hc with hc | hc
      · exact ih (n / 10) c hc
      · rw [List.mem_singleton.mp hc]
        exact digitChar_isDigit (n % 10) (Nat.mod_lt n (by norm_num))

theorem natDigits_digits (m : ℕ) : ∀ c ∈ natDigits m, c.isDigit = true :=
  natDigitsAux_digits m m

theorem digitsToNat_natDigitsAux (fuel : ℕ) :
    ∀ (n : ℕ), n ≤ fuel → digitsToNat (natDigitsAux fuel n) = n := by
  induction fuel with
  | zero =>
    intro n hn
    rw [Nat.le_zero.mp hn]
    rfl
  | succ f ih =>
    intro n hn
    simp only [natDigitsAux]
    by_cases h0 : n = 0
    · rw [if_pos h0, h0]; rfl
    · rw [if_neg h0, digitsToNat_append]
      have hdiv : n / 10 < n := Nat.div_lt_self (Nat.pos_of_ne_zero h0) (by norm_num)
      rw [ih (n / 10) (by omega)]
      rw [digitsToNat_digitChar (n % 10) (Nat.mod_lt n (by norm_num))]
      simp only [List.length_singleton, pow_one]
      omega

theorem digitsToNat_natDigits (m : ℕ) : digitsToNat (natDigits m) = m :=
  digitsToNat_natDigitsAux m m le_rfl

theorem dvd_ten_pow (d : ℕ) (K : ℕ) (h : d ∣ 10 ^ K) : d ∣ 10 ^ d := by
  induction d using Nat.strong_induction_on generalizing K with
  | _ d ih =>
    by_cases hd0 : d = 0
    · subst hd0
      exact absurd (Nat.eq_zero_of_zero_dvd h) (pow_ne_zero K (by norm_num))
    by_cases hd1 : d = 1
    · subst hd1; exact one_dvd _
    have hp : (d.minFac).Prime := Nat.minFac_prime hd1
    have hpd : d.minFac ∣ d := Nat.minFac_dvd d
    have hp10 : d.minFac ∣ 10 := hp.dvd_of_dvd_pow (hpd.trans h)
    have hdd' : d = d.minFac * (d / d.minFac) := (Nat.mul_div_cancel' hpd).symm
    have hd'lt : d / d.minFac < d := Nat.div_lt_self (Nat.pos_of_ne_zero hd0) hp.one_lt
    have hd' : d / d.minFac ∣ 10 ^ K := dvd_trans (Nat.div_dvd_of_dvd hpd) h
    have ihd : d / d.minFac ∣ 10 ^ (d / d.minFac) := ih (d / d.minFac) hd'lt K hd'
    have hmul : d.minFac * (d / d.minFac) ∣ 10 * 10 ^ (d / d.minFac) := mul_dvd_mul hp10 ihd
    rw [← hdd'] at hmul
    calc d ∣ 10 * 10 ^ (d / d.minFac) := hmul
      _ = 10 ^ (d / d.minFac + 1) := by rw [pow_succ]; ring
      _ ∣ 10 ^ d := pow_dvd_pow 10 (by omega)

theorem den_div_nat (N : ℤ) (M : ℕ) : ((N : ℚ) / (M : ℚ)).den ∣ M := by
  have h := Rat.den_dvd N (M : ℤ)
  rw [Rat.divInt_eq_div] at h
  have h2 : (((N : ℚ) / (M : ℚ)).den : ℤ) ∣ (M : ℤ) := by exact_mod_cast h
  exact_mod_cast h2

theorem tokVal_isDecimal (t : NumToken) : IsDecimal (tokVal t) := by
  unfold tokVal IsDecimal
  simp only []
  cases hf : t.frac with
  | none =>
    refine ⟨0, ?_⟩
    rw [pow_zero]
    cases hneg : t.neg <;> simp
  | some f =>
    refine ⟨f.length, ?_⟩
    have hval : (digitsToNat t.ints : ℚ) + (digitsToNat f : ℚ) / (10 : ℚ) ^ f.length
        = (((digitsToNat t.ints * 10 ^ f.length + digitsToNat f : ℕ) : ℤ) : ℚ)
          / (((10 ^ f.length : ℕ) : ℤ) : ℚ) := by
      push_cast
      have h10 : ((10 : ℚ) ^ f.length) ≠ 0 := pow_ne_zero _ (by norm_num)
      field_simp
    cases hneg : t.neg with
    | false =>
      rw [if_neg (show ¬ (false = true) by simp)]
      simp only []
      rw [hval]
      have := den_div_nat ((digitsToNat t.ints * 10 ^ f.length + digitsToNat f : ℕ) : ℤ)
        (10 ^ f.length)
      simpa using this
    | true =>
      rw [if_pos rfl, Rat.neg_den]
      simp only []
      rw [hval]
      have := den_div_nat ((digitsToNat t.ints * 10 ^ f.length + digitsToNat f : ℕ) : ℤ)
        (10 ^ f.length)
      simpa using this

theorem signed_abs (q : ℚ) (x : ℚ) (hx : x = (q.num.natAbs : ℚ) / (q.den : ℚ)) :
    (if decide (q.num < 0) = true then -x else x) = q := by
  rw [hx]
  by_cases hneg : q.num < 0
  · rw [if_pos (by simp [hneg])]
    have habs : ((q.num.natAbs : ℚ)) = -(q.num : ℚ) := by
      rw [Int.cast_natAbs, Int.cast_abs]
      exact abs_of_neg (by exact_mod_cast hneg)
    rw [habs, neg_div, neg_neg]
    exact Rat.num_div_den q
  · rw [if_neg (by simp [hneg])]
    have habs : ((q.num.natAbs : ℚ)) = (q.num : ℚ) := by
      rw [Int.cast_natAbs, Int.cast_abs]
      exact abs_of_nonneg (by exact_mod_cast not_lt.mp hneg)
    rw [habs]
    exact Rat.num_div_den q

theorem tokVal_render (q : ℚ) (k : ℕ) (pad : List Char)
    (hkdvd : q.den ∣ 10 ^ k)
    (hval : digitsToNat pad = q.num.natAbs * 10 ^ k / q.den)
    (hlen : k + 1 ≤ pad.length) :
    tokVal ⟨decide (q.num < 0), pad.take (pad.length - k),
      some (if k = 0 then ['0'] else pad.drop (pad.length - k))⟩ = q := by
  have hden0 : (q.den : ℚ) ≠ 0 := by
    exact_mod_cast q.den_pos.ne'
  have hmd : (q.num.natAbs * 10 ^ k / q.den) * q.den = q.num.natAbs * 10 ^ k :=
    Nat.div_mul_cancel (Dvd.dvd.mul_left hkdvd _)
  by_cases hk0 : k = 0
  · subst hk0
    have hden1 : q.den = 1 := Nat.dvd_one.mp (by simpa using hkdvd)
    have hip : pad.take (pad.length - 0) = pad := by
      simp [List.take_length]
    unfold tokVal
    simp only [hip]
    rw [if_pos (trivial : True)]
    rw [show digitsToNat ['0'] = 0 from by decide]
    apply signed_abs
    rw [hval, hden1]
    simp
  · unfold tokVal
    simp only [if_neg hk0]
    have hdroplen : (pad.drop (pad.length - k)).length = k := by
      rw [List.length_drop]
      omega
    have hsplit : digitsToNat (pad.take (pad.length - k)) * 10 ^ k
        + digitsToNat (pad.drop (pad.length - k)) = digitsToNat pad := by
      conv_rhs => rw [← List.take_append_drop (pad.length - k) pad]
      rw [digitsToNat_append, hdroplen]
    apply signed_abs
    rw [hdroplen]
    have hmag : (digitsToNat (pad.take (pad.length - k)) : ℚ)
        + (digitsToNat (pad.drop (pad.length - k)) : ℚ) / (10 : ℚ) ^ k
        = ((digitsToNat pad : ℚ)) / (10 : ℚ) ^ k := by
      rw [← hsplit]
      push_cast
      field_simp
    rw [hmag, div_eq_div_iff (pow_ne_zero _ (by norm_num)) hden0, hval]
    exact_mod_cast hmd

theorem parseNumL_tokChars (t : NumToken) (ht : t.Wf) :
    parseNumL (tokChars t) = some (tokVal t) := by
  have h := parseNumL_noise [] t [] (fun c hc => absurd hc (List.not_mem_nil c)) ht
    ⟨rfl, fun _ r hr => absurd hr (by simp [sanitize]), fun c hc => absurd hc (List.not_mem_nil c)⟩
  simpa using h

theorem parse_pyFloatRepr (q : ℚ) (hq : IsDecimal q) :
    parseNumL (pyFloatRepr q) = some q := by
  obtain ⟨K, hK⟩ := hq
  obtain ⟨k, hk⟩ : ∃ k, (List.range (q.den + 1)).find?
      (fun j => decide (q.den ∣ 10 ^ j)) = some k :=
    Option.isSome_iff_exists.mp (List.find?_isSome.mpr
      ⟨q.den, by simp [List.mem_range], by simp [dvd_ten_pow q.den K hK]⟩)
  have h1 := List.find?_some hk
  have hkdvd : q.den ∣ 10 ^ k := of_decide_eq_true h1
  obtain ⟨pad, hshape, hval, hdig, hlen⟩ : ∃ pad : List Char,
      pyFloatRepr q = tokChars ⟨decide (q.num < 0), pad.take (pad.length - k),
        some (if k = 0 then ['0'] else pad.drop (pad.length - k))⟩
      ∧ digitsToNat pad = q.num.natAbs * 10 ^ k / q.den
      ∧ (∀ c ∈ pad, c.isDigit = true)
      ∧ k + 1 ≤ pad.length := by
    refine ⟨List.replicate (k + 1 - (natDigits (q.num.natAbs * 10 ^ k / q.den)).length) '0'
        ++ natDigits (q.num.natAbs * 10 ^ k / q.den), ?_, ?_, ?_, ?_⟩
    · unfold pyFloatRepr
      rw [hk]
      simp only []
      by_cases hneg : q.num < 0
      · simp [tokChars, hneg]
      · simp [tokChars, hneg]
    · rw [digitsToNat_append, digitsToNat_replicate_zero, digitsToNat_natDigits]
      simp
    · intro c hc
      rcases List.mem_append.mp hc with hc | hc
      · rw [List.eq_of_mem_replicate hc]
        decide
      · exact natDigits_digits _ c hc
    · rw [List.length_append, List.length_replicate]
      omega
  rw [hshape]
  have hiplen : (pad.take (pad.length - k)).length = pad.length - k := by
    rw [List.length_take]
    omega
  have hipne : pad.take (pad.length - k) ≠ [] := by
    intro h0
    rw [h0] at hiplen
    simp at hiplen
    omega
  have hfne : (if k = 0 then ['0'] else pad.drop (pad.length - k)) ≠ [] := by
    by_cases hk0 : k = 0
    · simp [hk0]
    · rw [if_neg hk0]
      intro h0
      have := List.length_drop (pad.length - k) pad
      rw [h0] at this
      simp at this
      omega
  have hfd : ∀ c ∈ (if k = 0 then ['0'] else pad.drop (pad.length - k)), c.isDigit = true := by
    by_cases hk0 : k = 0
    · rw [if_pos hk0]
      intro c hc
      rw [List.mem_singleton.mp hc]
      decide
    · rw [if_neg hk0]
      intro c hc
      exact hdig c (List.drop_subset _ _ hc)
  have hwf : NumToken.Wf ⟨decide (q.num < 0), pad.take (pad.length - k),
      some (if k = 0 then ['0'] else pad.drop (pad.length - k))⟩ := by
    refine ⟨hipne, ?_, ?_⟩
    · intro c hc
      exact hdig c (List.take_subset _ _ hc)
    · intro f hf
      cases hf
      exact ⟨hfne, hfd⟩
  rw [parseNumL_tokChars _ hwf]
  rw [tokVal_render q k pad hkdvd hval hlen]

/-- Supporting lemma: for every cell on which normalization succeeds
with value `q`, normalizing the plain positional rendering of `q`
yields `q` again — so re-normalization is the identity exactly on the
values whose `str()` stays in plain format.  The idempotence of the
normalizer as a whole fails through the scientific-notation branch of
`pyFloatStr`; see the counterexample below. -/
theorem parse_number_idem_plain (c : Cell) (q : ℚ) (h : _parse_number c = some q) :
    _parse_number (Cell.txt (String.mk (pyFloatRepr q))) = some q := by
  have hdec : IsDecimal q := by
    cases c with
    | na => exact absurd h (by simp [_parse_number])
    | txt v =>
      unfold _parse_number parseNumL at h
      obtain ⟨tok, htok, hval⟩ := Option.map_eq_some'.mp h
      rw [← hval]
      exact tokVal_isDecimal tok
  show parseNumL (String.mk (pyFloatRepr q)).toList = some q
  rw [show (String.mk (pyFloatRepr q)).toList = pyFloatRepr q from rfl]
  exact parse_pyFloatRepr q hdec

/-- Instance of the plain-format lemma: `"1,5"` normalizes to `1.5`,
and normalizing the rendered `"1.5"` gives `1.5` again. -/
theorem parse_number_idem_plain_instance :
    _parse_number (Cell.txt (String.mk (pyFloatRepr (3/2)))) = some (3/2) :=
  parse_number_idem_plain (Cell.txt "1,5") (3/2)
    (by norm_num +decide [_parse_number, parseNumL, sanitize, pyStrip, pyIsSpace, nbsp,
      findTok, grabTok, tokVal,
      (by decide : digitsToNat ['1'] = 1), (by decide : digitsToNat ['5'] = 5)])

/-- C5: the claimed idempotence of the numeric normalizer is violated
by the code.  The cell `"10000000000000000"` normalizes successfully to
`10^16`, but Python renders that float in scientific notation,
`str(1e16) = "1e+16"`, from which the regex `-?\d+(?:\.\d+)?` extracts
only the mantissa digit: re-normalizing yields `1`, not `10^16`, so
`normalize(normalize(x)) ≠ normalize(x)`.  (The same happens below the
plain-format window, e.g. `"0.00001"` → `1e-05` → `"1e-05"` → `1`.) -/
theorem claim_C5_code_bug :
    _parse_number (Cell.txt "10000000000000000") = some (10000000000000000 : ℚ)
    ∧ pyFloatStr (10000000000000000 : ℚ) = "1e+16".toList
    ∧ _parse_number (Cell.txt (String.mk (pyFloatStr (10000000000000000 : ℚ)))) = some 1
    ∧ ¬ ((1 : ℚ) = (10000000000000000 : ℚ)) := by
  have h2 : pyFloatStr (10000000000000000 : ℚ) = "1e+16".toList := by decide
  refine ⟨?_, h2, ?_, by norm_num⟩
  · norm_num +decide [_parse_number, parseNumL, sanitize, pyStrip, pyIsSpace, nbsp,
      findTok, grabTok, tokVal,
      (by decide : digitsToNat
        ['1', '0', '0', '0', '0', '0', '0', '0', '0', '0', '0', '0', '0', '0', '0', '0', '0']
        = 10000000000000000)]
  · rw [show String.mk (pyFloatStr (10000000000000000 : ℚ)) = "1e+16" from by
      rw [h2]; rfl]
    norm_num +decide [_parse_number, parseNumL, sanitize, pyStrip, pyIsSpace, nbsp,
      findTok, grabTok, tokVal, (by decide : digitsToNat ['1'] = 1)]

end SellerBot
